import Mathlib

/-!
Shallow embedding of the L293D slave controller core
(`L293DBoardSerial.ino`, revision 1.1.0): frame decoding from the serial
byte stream, hex decoding, address-based dispatch, per-channel debounced
timing state, EEPROM-backed timing configuration, and relay of every frame
to the next device.

Machine integers are modelled as `Nat`: `unsigned long` (the `millis()`
clock and the per-channel timestamps) is 32 bits wide, and every elapsed
time computed by the program is the unsigned difference `now - last`,
modelled by `usub32`.  Byte values (serial characters, EEPROM cells, the
channel bitmask) stay below 256 in every reachable state; where a claim
needs that bound it appears as a hypothesis.
-/

namespace L293D

/-- The value 2^32, the modulus of `unsigned long` arithmetic on the AVR target. -/
def ULONG_MOD : Nat := 4294967296

/-- Unsigned 32-bit subtraction `a - b`, as computed by
`millis() - last` in the source. -/
def usub32 (a b : Nat) : Nat :=
  (a % ULONG_MOD + (ULONG_MOD - b % ULONG_MOD)) % ULONG_MOD

/-- Constant `SERIAL_MAX_DATA_LENGTH 32` of the source. -/
def SERIAL_MAX_DATA_LENGTH : Nat := 32

/-- Constant `SERIAL_MSG_BEGIN_CHAR`, the byte of the character before a message (ASCII 60). -/
def SERIAL_MSG_BEGIN_CHAR : Nat := 60

/-- Constant `SERIAL_MSG_END_CHAR`, the byte of the character after a message (ASCII 62). -/
def SERIAL_MSG_END_CHAR : Nat := 62

/-- Constant `EEPROM_SET_FLAG 100` of the source. -/
def EEPROM_SET_FLAG : Nat := 100

/-- Constant `DEFAULT_CHANNEL_ON_TIME 80` (milliseconds). -/
def DEFAULT_CHANNEL_ON_TIME : Nat := 80

/-- Constant `DEFAULT_MIN_CHANNEL_OFF_TIME 40` (milliseconds). -/
def DEFAULT_MIN_CHANNEL_OFF_TIME : Nat := 40

/-- The global mutable state of the sketch: the serial receive buffer and
its bookkeeping flags, the per-channel timestamps and bitmask, the two
timing parameters, and the EEPROM contents (modelled as a total map from
byte offset to stored byte). -/
structure DeviceState where
  serialData : List Nat
  deviceAddress : Nat
  serialMessageActive : Bool
  serialMessageLength : Nat
  serialMessageAvailable : Bool
  serialLastTime : Nat
  setChannelLastTime : List Nat
  channelOnTime : Nat
  minChannelOffTime : Nat
  channelOnBitmask : Nat
  eeprom : Nat → Nat

/-- Function `charToNib()` of the source: converts one character of hexadecimal text to a nibble;
digits, upper and lower case letters decode to their value, every other
character decodes to 0. -/
def charToNib (ch : Nat) : Nat :=
  if 48 ≤ ch ∧ ch ≤ 57 then ch - 48           -- '0'..'9'
  else if 65 ≤ ch ∧ ch ≤ 70 then ch - 65 + 10 -- 'A'..'F'
  else if 97 ≤ ch ∧ ch ≤ 102 then ch - 97 + 10 -- 'a'..'f'
  else 0

/-- Function `readSerialByte()` of the source: reads the byte encoded in hexadecimal text at
positions `index` and `index+1` of the serial buffer. -/
def readSerialByte (data : List Nat) (index : Nat) : Nat :=
  charToNib (data.getD index 0) * 16 + charToNib (data.getD (index + 1) 0)

/-- Function `listenSerialNewChar()` of the source: appends the just-received character to the
buffer unless fewer than `leaveCharsAtEnd` free slots would remain. -/
def listenSerialNewChar (s : DeviceState) (leaveCharsAtEnd ch : Nat) :
    DeviceState :=
  if SERIAL_MAX_DATA_LENGTH - leaveCharsAtEnd ≤ s.serialMessageLength then s
  else
    { s with
      serialMessageLength := s.serialMessageLength + 1
      serialData := s.serialData.set s.serialMessageLength ch }

/-- One iteration of the `while (Serial.available())` loop in
`listenSerial()`: record the arrival time, then feed the byte to the frame
decoder.  The returned flag is true when the byte completed a frame
(the `return` in the source). -/
def listenSerialStep (s : DeviceState) (now ch : Nat) :
    DeviceState × Bool :=
  let s0 := { s with serialLastTime := now % ULONG_MOD }
  if s0.serialMessageActive then
    if ch = SERIAL_MSG_END_CHAR then
      let s1 := listenSerialNewChar s0 0 ch
      ({ s1 with serialMessageActive := false, serialMessageAvailable := true },
       true)
    else
      (listenSerialNewChar s0 1 ch, false)
  else
    if ch = SERIAL_MSG_BEGIN_CHAR then
      ({ listenSerialNewChar s0 1 ch with serialMessageActive := true }, false)
    else
      (s0, false)

/-- Drain the available bytes, each tagged with its `millis()` arrival
time; stop early when a frame completes, returning the unread bytes and
whether the early `return` was taken. -/
def listenSerialBytes (s : DeviceState) :
    List (Nat × Nat) → DeviceState × List (Nat × Nat) × Bool
  | [] => (s, [], false)
  | (t, ch) :: rest =>
    let p := listenSerialStep s t ch
    if p.2 then (p.1, rest, true) else listenSerialBytes p.1 rest

/-- The timeout test at the end of `listenSerial()`: if more than 1000 ms
elapsed since the last serial byte, discard the frame in progress. -/
def timeoutCheck (s : DeviceState) (now : Nat) : DeviceState :=
  if 1000 < usub32 now s.serialLastTime then
    { s with serialMessageActive := false, serialMessageLength := 0 }
  else s

/-- Function `listenSerial()` of the source: drain the available bytes, and when the drain loop
exits without completing a frame apply the 1000 ms timeout test at the
current time `now`. -/
def listenSerial (s : DeviceState) (now : Nat) (bytes : List (Nat × Nat)) :
    DeviceState × List (Nat × Nat) :=
  let r := listenSerialBytes s bytes
  if r.2.2 then (r.1, r.2.1) else (timeoutCheck r.1 now, r.2.1)

/-- The body of the channel loop of `processSerial()` for one requested
channel, acting on the pair (bitmask, timestamp list): if the channel is
off and its minimum off time has elapsed, energize it and stamp the
current time. -/
def requestOnCore (now minOff : Nat) (st : Nat × List Nat) (i : Nat) :
    Nat × List Nat :=
  if ¬ st.1.testBit i ∧ minOff ≤ usub32 now (st.2.getD i 0) then
    (st.1 ||| (1 <<< i), st.2.set i (now % ULONG_MOD))
  else st

/-- One iteration of the channel loop of `processSerial()`: channel `i`
receives an on-request exactly when bit `i` of the command byte is set. -/
def requestOnStep (now minOff cmd : Nat) (st : Nat × List Nat) (i : Nat) :
    Nat × List Nat :=
  if cmd.testBit i then requestOnCore now minOff st i else st

/-- The full channel loop of `processSerial()` (`for (i = 0; i < 8; i++)`)
applied to the device state. -/
def applyChannelCmd (s : DeviceState) (now cmd : Nat) : DeviceState :=
  let st := (List.range 8).foldl (requestOnStep now s.minChannelOffTime cmd)
      (s.channelOnBitmask, s.setChannelLastTime)
  { s with channelOnBitmask := st.1, setChannelLastTime := st.2 }

/-- Write `EEPROM.write(off, v)` on the modelled store. -/
def eepromWrite (e : Nat → Nat) (off v : Nat) : Nat → Nat :=
  fun o => if o = off then v else e o

/-- Function `setChannelOnTime()` of the source: write the sentinel at offset 0 and the value in
hundredths of a second at offset 1, and set the on time in milliseconds. -/
def setChannelOnTime (s : DeviceState) (onTimeCs : Nat) : DeviceState :=
  { s with
    eeprom := eepromWrite (eepromWrite s.eeprom 0 EEPROM_SET_FLAG) 1 onTimeCs
    channelOnTime := onTimeCs * 10 }

/-- Function `setMinChannelOffTime()` of the source: write the sentinel at offset 2 and the value
at offset 3, and set the minimum off time in milliseconds. -/
def setMinChannelOffTime (s : DeviceState) (minOffTimeCs : Nat) : DeviceState :=
  { s with
    eeprom := eepromWrite (eepromWrite s.eeprom 2 EEPROM_SET_FLAG) 3 minOffTimeCs
    minChannelOffTime := minOffTimeCs * 10 }

/-- Function `loadChannelOnTime()` of the source: at boot, read the on time from EEPROM when the
sentinel at offset 0 is set, otherwise use the built-in default. -/
def loadChannelOnTime (s : DeviceState) : DeviceState :=
  { s with
    channelOnTime :=
      if s.eeprom 0 = EEPROM_SET_FLAG then s.eeprom 1 * 10
      else DEFAULT_CHANNEL_ON_TIME }

/-- Function `loadMinChannelOffTime()` of the source: at boot, read the minimum off time from
EEPROM when the sentinel at offset 2 is set, otherwise use the default. -/
def loadMinChannelOffTime (s : DeviceState) : DeviceState :=
  { s with
    minChannelOffTime :=
      if s.eeprom 2 = EEPROM_SET_FLAG then s.eeprom 3 * 10
      else DEFAULT_MIN_CHANNEL_OFF_TIME }

/-- The two configuration rules of `processSerial()`: address `0xFF` sets
the channel on time, address `0xFE` sets the minimum channel off time. -/
def dispatchConfig (s : DeviceState) (addr cmd : Nat) : DeviceState :=
  let s1 := if addr = 255 then setChannelOnTime s cmd else s
  if addr = 254 then setMinChannelOffTime s1 cmd else s1

/-- The dispatch part of `processSerial()`: decode address and command
from buffer positions 1–4, apply the two configuration rules and the
own-address channel rule. -/
def processSerialCore (s : DeviceState) (now : Nat) : DeviceState :=
  let addr := readSerialByte s.serialData 1
  let cmd := readSerialByte s.serialData 3
  let s2 := dispatchConfig s addr cmd
  if addr = s2.deviceAddress then applyChannelCmd s2 now cmd else s2

/-- Function `processSerial()` of the source: when a complete message is available, dispatch it,
relay the raw frame bytes followed by the `println` line terminator
`"\r\n"`, and reset the message bookkeeping.  The second component is the
list of bytes written to the outbound serial stream. -/
def processSerial (s : DeviceState) (now : Nat) : DeviceState × List Nat :=
  if s.serialMessageAvailable = false then (s, [])
  else
    let s3 := processSerialCore s now
    ({ s3 with serialMessageAvailable := false, serialMessageLength := 0 },
     s.serialData.take s.serialMessageLength ++ [13, 10])

/-- One iteration of the loop in `checkResetChannels()`, acting on the
pair (bitmask, timestamp list): an energized channel whose on time has
strictly elapsed is de-energized and stamped with the current time. -/
def resetStep (now onTime : Nat) (st : Nat × List Nat) (i : Nat) :
    Nat × List Nat :=
  if st.1.testBit i ∧ onTime < usub32 now (st.2.getD i 0) then
    (st.1 &&& (255 ^^^ (1 <<< i)), st.2.set i (now % ULONG_MOD))
  else st

/-- Function `checkResetChannels()` of the source: the expiry poll over all 8 channels. -/
def checkResetChannels (s : DeviceState) (now : Nat) : DeviceState :=
  let st := (List.range 8).foldl (resetStep now s.channelOnTime)
      (s.channelOnBitmask, s.setChannelLastTime)
  { s with channelOnBitmask := st.1, setChannelLastTime := st.2 }

/-- Function `setup()` of the source gives the state after boot with device address `devAddr` and
EEPROM contents `e` — cleared buffer and flags, zeroed timestamps (C
globals start at 0), and timing parameters loaded from the store. -/
def bootState (devAddr : Nat) (e : Nat → Nat) : DeviceState :=
  loadMinChannelOffTime (loadChannelOnTime
    { serialData := List.replicate 32 0
      deviceAddress := devAddr
      serialMessageActive := false
      serialMessageLength := 0
      serialMessageAvailable := false
      serialLastTime := 0
      setChannelLastTime := List.replicate 8 0
      channelOnTime := 0
      minChannelOffTime := 0
      channelOnBitmask := 0
      eeprom := e })

/-- One iteration of `loop()` in normal operation, at time `now` with the
given queue of timestamped input bytes: listen, process (collecting the
relayed output), poll expiry.  Returns the new state, the input bytes left
unread in the serial buffer, and the bytes written out. -/
def loopIter (s : DeviceState) (now : Nat) (bytes : List (Nat × Nat)) :
    DeviceState × List (Nat × Nat) × List Nat :=
  let l := listenSerial s now bytes
  let p := processSerial l.1 now
  (checkResetChannels p.1 now, l.2, p.2)

/-- The single-channel on-request of the timing engine, as performed by
the body of the channel loop in `processSerial()` for a channel whose
command bit is set. -/
def requestOn (s : DeviceState) (now i : Nat) : DeviceState :=
  let st := requestOnCore now s.minChannelOffTime
      (s.channelOnBitmask, s.setChannelLastTime) i
  { s with channelOnBitmask := st.1, setChannelLastTime := st.2 }

/-- The state of channel `i` as seen by the channel loops: its bit of the
bitmask and its last-transition timestamp. -/
def viewAt (st : Nat × List Nat) (i : Nat) : Bool × Nat :=
  (st.1.testBit i, st.2.getD i 0)

/-- Pointwise effect of an on-request on one channel's (energized,
timestamp) pair: used to characterise the channel loop channel by
channel. -/
def requestAtView (now minOff : Nat) (p : Bool × Nat) : Bool × Nat :=
  if ¬ p.1 ∧ minOff ≤ usub32 now p.2 then (true, now % ULONG_MOD) else p

/-- Pointwise effect of the expiry poll on one channel's (energized,
timestamp) pair. -/
def resetAtView (now onTime : Nat) (p : Bool × Nat) : Bool × Nat :=
  if p.1 ∧ onTime < usub32 now p.2 then (false, now % ULONG_MOD) else p

/-- Tag every byte of a list with the same arrival time. -/
def atTime (t : Nat) (l : List Nat) : List (Nat × Nat) :=
  l.map (fun c => (t, c))

/-- The raw bytes of the frame `"<0194>"`. -/
def frame0194 : List Nat := [60, 48, 49, 57, 52, 62]

/-- The raw bytes of the configuration frame `"<FF19>"`. -/
def frameFF19 : List Nat := [60, 70, 70, 49, 57, 62]

/-- The raw bytes of the configuration frame `"<FE0C>"`. -/
def frameFE0C : List Nat := [60, 70, 69, 48, 67, 62]

/-- The raw bytes of the malformed short frame `"<zz>"`. -/
def frameZZ : List Nat := [60, 122, 122, 62]

/-- An EEPROM whose cells all read 0 (sentinel not set). -/
def zeroEeprom : Nat → Nat := fun _ => 0

/-- The state reached from boot after listening to one burst of frame
bytes arriving at time `t`. -/
def stateAfter (devAddr : Nat) (e : Nat → Nat) (t : Nat)
    (frame : List Nat) : DeviceState :=
  (listenSerial (bootState devAddr e) t (atTime t frame)).1

/-- The invariant maintained by the frame decoder between bytes in normal
operation: intact 32-byte buffer, stored length at most 31 (one slot is
reserved while a frame is open), and no completed message pending. -/
def ListenInv (s : DeviceState) : Prop :=
  s.serialData.length = 32 ∧ s.serialMessageLength ≤ 31 ∧
    s.serialMessageAvailable = false

/-! ## Arithmetic helper lemmas -/

theorem ULONG_MOD_pos : 0 < ULONG_MOD := by decide

theorem usub32_self (a : Nat) : usub32 a a = 0 := by
  unfold usub32
  have h : a % ULONG_MOD < ULONG_MOD := Nat.mod_lt _ ULONG_MOD_pos
  have h2 : a % ULONG_MOD + (ULONG_MOD - a % ULONG_MOD) = ULONG_MOD := by omega
  rw [h2, Nat.mod_self]

theorem usub32_add_of_lt (T d : Nat) (h : T + d < ULONG_MOD) :
    usub32 (T + d) T = d := by
  unfold usub32
  have h1 : (T + d) % ULONG_MOD = T + d := Nat.mod_eq_of_lt h
  have h2 : T % ULONG_MOD = T := Nat.mod_eq_of_lt (by omega)
  rw [h1, h2]
  have h3 : T + d + (ULONG_MOD - T) = ULONG_MOD + d := by omega
  rw [h3, Nat.add_mod_left]
  exact Nat.mod_eq_of_lt (by omega)

theorem testBit_255_of_lt : ∀ i : Nat, i < 8 → Nat.testBit 255 i = true := by
  decide

/-! ## Pointwise characterisation of the two channel loops

Both `processSerial()`'s channel loop and `checkResetChannels()` iterate
`i = 0 .. 7` over the shared pair (bitmask, timestamp list), and each
iteration reads and writes only position `i`.  The generic lemmas below
turn the fold into a per-channel statement. -/

theorem foldl_length_eq (f : Nat × List Nat → Nat → Nat × List Nat)
    (Hlen : ∀ st j, (f st j).2.length = st.2.length) :
    ∀ (l : List Nat) (st : Nat × List Nat),
      (l.foldl f st).2.length = st.2.length := by
  intro l
  induction l with
  | nil => intro st; rfl
  | cons j t ih =>
    intro st
    rw [List.foldl_cons, ih (f st j), Hlen]

theorem foldl_viewAt_of_notMem (f : Nat × List Nat → Nat → Nat × List Nat)
    (i : Nat) (Hother : ∀ st j, j ≠ i → viewAt (f st j) i = viewAt st i) :
    ∀ (l : List Nat) (st : Nat × List Nat), i ∉ l →
      viewAt (l.foldl f st) i = viewAt st i := by
  intro l
  induction l with
  | nil => intro st _; rfl
  | cons j t ih =>
    intro st hmem
    rw [List.foldl_cons, ih (f st j) (fun h => hmem (List.mem_cons_of_mem _ h)),
      Hother st j (fun h => hmem (h ▸ List.mem_cons_self _ _))]

theorem foldl_viewAt_of_mem (f : Nat × List Nat → Nat → Nat × List Nat)
    (i L : Nat) (g : Bool × Nat → Bool × Nat)
    (Hlen : ∀ st j, (f st j).2.length = st.2.length)
    (Hother : ∀ st j, j ≠ i → viewAt (f st j) i = viewAt st i)
    (Hself : ∀ st, st.2.length = L → viewAt (f st i) i = g (viewAt st i)) :
    ∀ (l : List Nat) (st : Nat × List Nat), l.Nodup → i ∈ l →
      st.2.length = L → viewAt (l.foldl f st) i = g (viewAt st i) := by
  intro l
  induction l with
  | nil => intro st _ hmem; exact absurd hmem (List.not_mem_nil i)
  | cons j t ih =>
    intro st hnd hmem hL
    rcases List.mem_cons.mp hmem with hji | hit
    · subst hji
      rw [List.foldl_cons,
        foldl_viewAt_of_notMem f i Hother t (f st i) (List.nodup_cons.mp hnd).1,
        Hself st hL]
    · have hji : j ≠ i := by
        intro h
        exact (List.nodup_cons.mp hnd).1 (h ▸ hit)
      rw [List.foldl_cons, ih (f st j) (List.nodup_cons.mp hnd).2 hit
        (by rw [Hlen]; exact hL), Hother st j hji]

theorem requestOnStep_length (now minOff cmd : Nat) :
    ∀ (st : Nat × List Nat) (j : Nat),
      (requestOnStep now minOff cmd st j).2.length = st.2.length := by
  intro st j
  unfold requestOnStep requestOnCore
  split
  · split
    · simp
    · rfl
  · rfl

theorem requestOnStep_viewAt_ne (now minOff cmd i : Nat) :
    ∀ (st : Nat × List Nat) (j : Nat), j ≠ i →
      viewAt (requestOnStep now minOff cmd st j) i = viewAt st i := by
  intro st j hne
  unfold requestOnStep requestOnCore viewAt
  split
  · split
    · simp [Nat.testBit_or, Nat.one_shiftLeft, Nat.testBit_two_pow, hne,
        List.getD_eq_getElem?_getD, List.getElem?_set_ne hne]
    · rfl
  · rfl

theorem requestOnStep_viewAt_self (now minOff cmd i : Nat) (hi : i < 8) :
    ∀ st : Nat × List Nat, st.2.length = 8 →
      viewAt (requestOnStep now minOff cmd st i) i =
        (if cmd.testBit i then requestAtView now minOff (viewAt st i)
         else viewAt st i) := by
  intro st hL
  have hlen : i < st.2.length := by omega
  unfold requestOnStep requestOnCore requestAtView viewAt
  by_cases hc : cmd.testBit i = true
  · simp only [hc, if_true]
    split
    · simp [Nat.testBit_or, Nat.one_shiftLeft, Nat.testBit_two_pow,
        List.getD_eq_getElem?_getD, List.getElem?_set_self hlen]
    · rfl
  · simp only [hc, if_false, Bool.false_eq_true]

theorem resetStep_length (now onTime : Nat) :
    ∀ (st : Nat × List Nat) (j : Nat),
      (resetStep now onTime st j).2.length = st.2.length := by
  intro st j
  unfold resetStep
  split
  · simp
  · rfl

theorem resetStep_viewAt_ne (now onTime i : Nat) (hi : i < 8) :
    ∀ (st : Nat × List Nat) (j : Nat), j ≠ i →
      viewAt (resetStep now onTime st j) i = viewAt st i := by
  intro st j hne
  unfold resetStep viewAt
  split
  · simp [Nat.testBit_and, Nat.testBit_xor, Nat.one_shiftLeft,
      Nat.testBit_two_pow, testBit_255_of_lt i hi, hne,
      List.getD_eq_getElem?_getD, List.getElem?_set_ne hne]
  · rfl

theorem resetStep_viewAt_self (now onTime i : Nat) (hi : i < 8) :
    ∀ st : Nat × List Nat, st.2.length = 8 →
      viewAt (resetStep now onTime st i) i =
        resetAtView now onTime (viewAt st i) := by
  intro st hL
  have hlen : i < st.2.length := by omega
  unfold resetStep resetAtView viewAt
  split
  · simp [Nat.testBit_and, Nat.testBit_xor, Nat.one_shiftLeft,
      Nat.testBit_two_pow, testBit_255_of_lt i hi,
      List.getD_eq_getElem?_getD, List.getElem?_set_self hlen]
  · rfl

/-- Per-channel characterisation of the channel loop of `processSerial()`:
channel `i` of the fold result is the single-channel on-request applied to
channel `i` of the input when command bit `i` is set, and untouched
otherwise. -/
theorem channelFold_viewAt (now minOff cmd m : Nat) (ts : List Nat)
    (i : Nat) (hi : i < 8) (hL : ts.length = 8) :
    viewAt ((List.range 8).foldl (requestOnStep now minOff cmd) (m, ts)) i =
      (if cmd.testBit i then requestAtView now minOff (viewAt (m, ts) i)
       else viewAt (m, ts) i) :=
  foldl_viewAt_of_mem (requestOnStep now minOff cmd) i 8
    (fun p => if cmd.testBit i then requestAtView now minOff p else p)
    (requestOnStep_length now minOff cmd)
    (requestOnStep_viewAt_ne now minOff cmd i)
    (requestOnStep_viewAt_self now minOff cmd i hi)
    (List.range 8) (m, ts) (List.nodup_range 8) (List.mem_range.mpr hi) hL

/-- Per-channel characterisation of the expiry loop of
`checkResetChannels()`. -/
theorem resetFold_viewAt (now onTime m : Nat) (ts : List Nat)
    (i : Nat) (hi : i < 8) (hL : ts.length = 8) :
    viewAt ((List.range 8).foldl (resetStep now onTime) (m, ts)) i =
      resetAtView now onTime (viewAt (m, ts) i) :=
  foldl_viewAt_of_mem (resetStep now onTime) i 8
    (resetAtView now onTime)
    (resetStep_length now onTime)
    (resetStep_viewAt_ne now onTime i hi)
    (resetStep_viewAt_self now onTime i hi)
    (List.range 8) (m, ts) (List.nodup_range 8) (List.mem_range.mpr hi) hL

/-! ## Field-preservation lemmas for the dispatch helpers -/

@[simp] theorem dispatchConfig_deviceAddress (s : DeviceState) (addr cmd : Nat) :
    (dispatchConfig s addr cmd).deviceAddress = s.deviceAddress := by
  unfold dispatchConfig
  dsimp only
  split_ifs <;> rfl

@[simp] theorem dispatchConfig_channelOnBitmask (s : DeviceState) (addr cmd : Nat) :
    (dispatchConfig s addr cmd).channelOnBitmask = s.channelOnBitmask := by
  unfold dispatchConfig
  dsimp only
  split_ifs <;> rfl

@[simp] theorem dispatchConfig_setChannelLastTime (s : DeviceState) (addr cmd : Nat) :
    (dispatchConfig s addr cmd).setChannelLastTime = s.setChannelLastTime := by
  unfold dispatchConfig
  dsimp only
  split_ifs <;> rfl

@[simp] theorem dispatchConfig_serialData (s : DeviceState) (addr cmd : Nat) :
    (dispatchConfig s addr cmd).serialData = s.serialData := by
  unfold dispatchConfig
  dsimp only
  split_ifs <;> rfl

@[simp] theorem dispatchConfig_minChannelOffTime (s : DeviceState) (addr cmd : Nat)
    (h : addr ≠ 254) :
    (dispatchConfig s addr cmd).minChannelOffTime = s.minChannelOffTime := by
  unfold dispatchConfig
  dsimp only
  rw [if_neg h]
  split_ifs <;> rfl

theorem dispatchConfig_of_plain (s : DeviceState) (addr cmd : Nat)
    (h255 : addr ≠ 255) (h254 : addr ≠ 254) :
    dispatchConfig s addr cmd = s := by
  unfold dispatchConfig
  dsimp only
  rw [if_neg h254, if_neg h255]

@[simp] theorem applyChannelCmd_deviceAddress (s : DeviceState) (now cmd : Nat) :
    (applyChannelCmd s now cmd).deviceAddress = s.deviceAddress := rfl

@[simp] theorem applyChannelCmd_serialData (s : DeviceState) (now cmd : Nat) :
    (applyChannelCmd s now cmd).serialData = s.serialData := rfl

@[simp] theorem applyChannelCmd_channelOnTime (s : DeviceState) (now cmd : Nat) :
    (applyChannelCmd s now cmd).channelOnTime = s.channelOnTime := rfl

@[simp] theorem applyChannelCmd_minChannelOffTime (s : DeviceState) (now cmd : Nat) :
    (applyChannelCmd s now cmd).minChannelOffTime = s.minChannelOffTime := rfl

@[simp] theorem applyChannelCmd_eeprom (s : DeviceState) (now cmd : Nat) :
    (applyChannelCmd s now cmd).eeprom = s.eeprom := rfl

/-- The channel-visible outcome of `processSerialCore`: the bitmask and
timestamps are run through the channel loop exactly when the decoded
address equals the device address (with the minimum off time possibly just
updated by a `0xFE` configuration command), and untouched otherwise. -/
theorem processSerialCore_channels (s : DeviceState) (now : Nat) :
    ((processSerialCore s now).channelOnBitmask,
     (processSerialCore s now).setChannelLastTime) =
      (if readSerialByte s.serialData 1 = s.deviceAddress then
        (List.range 8).foldl
          (requestOnStep now
            (if readSerialByte s.serialData 1 = 254 then
              readSerialByte s.serialData 3 * 10
            else s.minChannelOffTime)
            (readSerialByte s.serialData 3))
          (s.channelOnBitmask, s.setChannelLastTime)
      else (s.channelOnBitmask, s.setChannelLastTime)) := by
  unfold processSerialCore
  dsimp only
  rw [dispatchConfig_deviceAddress]
  by_cases haddr : readSerialByte s.serialData 1 = s.deviceAddress
  · rw [if_pos haddr, if_pos haddr]
    unfold applyChannelCmd
    dsimp only
    rw [dispatchConfig_channelOnBitmask, dispatchConfig_setChannelLastTime]
    by_cases h254 : readSerialByte s.serialData 1 = 254
    · rw [if_pos h254]
      unfold dispatchConfig
      dsimp only
      rw [if_pos h254]
      rfl
    · rw [if_neg h254, dispatchConfig_minChannelOffTime s _ _ h254]
  · rw [if_neg haddr, if_neg haddr]
    rw [dispatchConfig_channelOnBitmask, dispatchConfig_setChannelLastTime]

/-- Running `processSerial` on an available message: the channel-visible outcome
is that of `processSerialCore`, and the relayed output is the stored
frame followed by the line terminator. -/
theorem processSerial_of_available (s : DeviceState) (now : Nat)
    (hav : s.serialMessageAvailable = true) :
    (processSerial s now).1.channelOnBitmask =
      (processSerialCore s now).channelOnBitmask ∧
    (processSerial s now).1.setChannelLastTime =
      (processSerialCore s now).setChannelLastTime ∧
    (processSerial s now).1.eeprom = (processSerialCore s now).eeprom ∧
    (processSerial s now).1.channelOnTime =
      (processSerialCore s now).channelOnTime ∧
    (processSerial s now).1.minChannelOffTime =
      (processSerialCore s now).minChannelOffTime ∧
    (processSerial s now).2 =
      s.serialData.take s.serialMessageLength ++ [13, 10] := by
  unfold processSerial
  rw [if_neg (by simp [hav])]
  exact ⟨rfl, rfl, rfl, rfl, rfl, rfl⟩

/-- A successful on-request: channel off and debounce window elapsed. -/
theorem requestOn_succeeds (s : DeviceState) (now i : Nat) (hi : i < 8)
    (hL : s.setChannelLastTime.length = 8)
    (hoff : s.channelOnBitmask.testBit i = false)
    (hel : s.minChannelOffTime ≤ usub32 now (s.setChannelLastTime.getD i 0)) :
    (requestOn s now i).channelOnBitmask.testBit i = true ∧
    (requestOn s now i).setChannelLastTime.getD i 0 = now % ULONG_MOD := by
  unfold requestOn requestOnCore
  dsimp only
  rw [if_pos ⟨by simp [hoff], hel⟩]
  constructor
  · simp [Nat.testBit_or, Nat.one_shiftLeft, Nat.testBit_two_pow]
  · simp [List.getD_eq_getElem?_getD,
      List.getElem?_set_self (show i < s.setChannelLastTime.length by omega)]

/-- A rejected on-request: channel already on, or debounce window not
elapsed.  The whole device state is unchanged. -/
theorem requestOn_noop (s : DeviceState) (now i : Nat)
    (h : s.channelOnBitmask.testBit i = true ∨
      usub32 now (s.setChannelLastTime.getD i 0) < s.minChannelOffTime) :
    requestOn s now i = s := by
  unfold requestOn requestOnCore
  dsimp only
  rw [if_neg]
  rcases h with h1 | h2
  · exact fun hc => hc.1 (by simp [h1])
  · exact fun hc => absurd hc.2 (by omega)

/-- Per-channel characterisation of one invocation of the expiry poll. -/
theorem checkResetChannels_viewAt (s : DeviceState) (now i : Nat)
    (hi : i < 8) (hL : s.setChannelLastTime.length = 8) :
    ((checkResetChannels s now).channelOnBitmask.testBit i,
     (checkResetChannels s now).setChannelLastTime.getD i 0) =
      resetAtView now s.channelOnTime
        (s.channelOnBitmask.testBit i, s.setChannelLastTime.getD i 0) := by
  unfold checkResetChannels
  dsimp only
  simpa [viewAt] using
    resetFold_viewAt now s.channelOnTime s.channelOnBitmask
      s.setChannelLastTime i hi hL

/-- C2: an on-request for channel `i` turns it on and stamps
`lastTransitionTime(i) = now` exactly when the channel is off and the
unsigned elapsed time since its last transition is at least
`minChannelOffTime`; in every other case (debounce window not elapsed, or
channel already on) the request changes nothing, timestamp included.  A
request at exactly `lastOffTime + minChannelOffTime` succeeds and a
request one time unit earlier is rejected (for a positive debounce window
and within the 32-bit counter range). -/
theorem requestOn_debounce_claim (s : DeviceState) (now i : Nat)
    (hi : i < 8) (hL : s.setChannelLastTime.length = 8) :
    (s.channelOnBitmask.testBit i = false ∧
        s.minChannelOffTime ≤ usub32 now (s.setChannelLastTime.getD i 0) →
      (requestOn s now i).channelOnBitmask.testBit i = true ∧
      (requestOn s now i).setChannelLastTime.getD i 0 = now % ULONG_MOD) ∧
    (s.channelOnBitmask.testBit i = true ∨
        usub32 now (s.setChannelLastTime.getD i 0) < s.minChannelOffTime →
      requestOn s now i = s) ∧
    (∀ T : Nat, s.setChannelLastTime.getD i 0 = T →
      s.channelOnBitmask.testBit i = false →
      T + s.minChannelOffTime < ULONG_MOD →
      ((now = T + s.minChannelOffTime →
        (requestOn s now i).channelOnBitmask.testBit i = true ∧
        (requestOn s now i).setChannelLastTime.getD i 0 = now % ULONG_MOD) ∧
       (1 ≤ s.minChannelOffTime → now = T + (s.minChannelOffTime - 1) →
        requestOn s now i = s))) := by
  refine ⟨fun h => requestOn_succeeds s now i hi hL h.1 h.2,
    fun h => requestOn_noop s now i h, fun T hT hoff hrange => ⟨?_, ?_⟩⟩
  · intro hnow
    refine requestOn_succeeds s now i hi hL hoff ?_
    rw [hT, hnow, usub32_add_of_lt T s.minChannelOffTime hrange]
  · intro hpos hnow
    refine requestOn_noop s now i (Or.inr ?_)
    rw [hT, hnow, usub32_add_of_lt T (s.minChannelOffTime - 1) (by omega)]
    omega

/-- Witness for C2 at a concrete state: from boot (all channels off at
time 0, minimum off time 40 ms) a request for channel 0 at time 40
succeeds, and a request at time 39 is a no-op. -/
theorem requestOn_debounce_claim_witness :
    (requestOn (bootState 0 zeroEeprom) 40 0).channelOnBitmask.testBit 0 = true ∧
    (requestOn (bootState 0 zeroEeprom) 40 0).setChannelLastTime.getD 0 0 = 40 ∧
    requestOn (bootState 0 zeroEeprom) 39 0 = bootState 0 zeroEeprom := by
  have h40 := (requestOn_debounce_claim (bootState 0 zeroEeprom) 40 0
    (by decide) (by decide)).2.2 0 (by decide) (by decide) (by decide)
  have h39 := (requestOn_debounce_claim (bootState 0 zeroEeprom) 39 0
    (by decide) (by decide)).2.2 0 (by decide) (by decide) (by decide)
  refine ⟨(h40.1 (by decide)).1, ((h40.1 (by decide)).2).trans (by decide),
    h39.2 (by decide) (by decide)⟩

/-- C3: one invocation of the expiry poll turns off exactly the channels
that are on with strictly more than `channelOnTime` elapsed (unsigned),
stamping their timestamp with `now`, and leaves every other channel's
state and timestamp unchanged; consequently a channel last stamped at
`T0` and polled at any later `T0 + channelOnTime + c` (one or more cycle
intervals `c ≥ 1`) is off after the poll. -/
theorem checkResetChannels_claim (s : DeviceState) (now i : Nat)
    (hi : i < 8) (hL : s.setChannelLastTime.length = 8) :
    (s.channelOnBitmask.testBit i = true ∧
        s.channelOnTime < usub32 now (s.setChannelLastTime.getD i 0) →
      (checkResetChannels s now).channelOnBitmask.testBit i = false ∧
      (checkResetChannels s now).setChannelLastTime.getD i 0 =
        now % ULONG_MOD) ∧
    (s.channelOnBitmask.testBit i = false ∨
        usub32 now (s.setChannelLastTime.getD i 0) ≤ s.channelOnTime →
      (checkResetChannels s now).channelOnBitmask.testBit i =
        s.channelOnBitmask.testBit i ∧
      (checkResetChannels s now).setChannelLastTime.getD i 0 =
        s.setChannelLastTime.getD i 0) ∧
    (∀ T0 c : Nat, s.setChannelLastTime.getD i 0 = T0 →
      s.channelOnBitmask.testBit i = true → 1 ≤ c →
      T0 + s.channelOnTime + c < ULONG_MOD →
      now = T0 + s.channelOnTime + c →
      (checkResetChannels s now).channelOnBitmask.testBit i = false) := by
  have hview := checkResetChannels_viewAt s now i hi hL
  unfold resetAtView at hview
  dsimp only at hview
  refine ⟨fun h => ?_, fun h => ?_, fun T0 c hT0 hon hc hrange hnow => ?_⟩
  · rw [if_pos ⟨h.1, h.2⟩] at hview
    exact ⟨congrArg Prod.fst hview, congrArg Prod.snd hview⟩
  · rw [if_neg ?_] at hview
    · exact ⟨congrArg Prod.fst hview, congrArg Prod.snd hview⟩
    · rcases h with h1 | h2
      · exact fun hc => by simp [h1] at hc
      · exact fun hc => absurd hc.2 (by omega)
  · have hgt : s.channelOnTime < usub32 now (s.setChannelLastTime.getD i 0) := by
      rw [hT0, hnow]
      have harr : T0 + s.channelOnTime + c = T0 + (s.channelOnTime + c) := by
        omega
      rw [harr, usub32_add_of_lt T0 (s.channelOnTime + c) (by omega)]
      omega
    rw [if_pos ⟨hon, hgt⟩] at hview
    exact congrArg Prod.fst hview

/-- Core dispatch `processSerialCore` never changes the device address or the receive
buffer. -/
theorem processSerialCore_deviceAddress (s : DeviceState) (now : Nat) :
    (processSerialCore s now).deviceAddress = s.deviceAddress := by
  unfold processSerialCore
  dsimp only
  split_ifs <;> simp

theorem processSerialCore_serialData (s : DeviceState) (now : Nat) :
    (processSerialCore s now).serialData = s.serialData := by
  unfold processSerialCore
  dsimp only
  split_ifs <;> simp

/-- The configuration-visible outcome of `processSerialCore` is that of
the two configuration rules alone. -/
theorem processSerialCore_config (s : DeviceState) (now : Nat) :
    (processSerialCore s now).eeprom =
      (dispatchConfig s (readSerialByte s.serialData 1)
        (readSerialByte s.serialData 3)).eeprom ∧
    (processSerialCore s now).channelOnTime =
      (dispatchConfig s (readSerialByte s.serialData 1)
        (readSerialByte s.serialData 3)).channelOnTime ∧
    (processSerialCore s now).minChannelOffTime =
      (dispatchConfig s (readSerialByte s.serialData 1)
        (readSerialByte s.serialData 3)).minChannelOffTime := by
  unfold processSerialCore
  dsimp only
  split_ifs <;> simp

/-- Witness for C3 at a concrete state: the channel turned on at time
1600 by the frame `"<0194>"` (on time 80 ms) is still on when polled at
time 1680 and off when polled at 1681, and an off channel is untouched. -/
theorem checkResetChannels_claim_witness :
    (checkResetChannels (processSerial
        (stateAfter 1 zeroEeprom 1600 frame0194) 1600).1
      1680).channelOnBitmask.testBit 2 = true ∧
    (checkResetChannels (processSerial
        (stateAfter 1 zeroEeprom 1600 frame0194) 1600).1
      1681).channelOnBitmask.testBit 2 = false ∧
    (checkResetChannels (processSerial
        (stateAfter 1 zeroEeprom 1600 frame0194) 1600).1
      1681).channelOnBitmask.testBit 0 = false := by
  have hkeep := ((checkResetChannels_claim
    (processSerial (stateAfter 1 zeroEeprom 1600 frame0194) 1600).1 1680 2
    (by decide) (by decide)).2.1 (by decide)).1
  have hexp := (checkResetChannels_claim
    (processSerial (stateAfter 1 zeroEeprom 1600 frame0194) 1600).1 1681 2
    (by decide) (by decide)).2.2 1600 1 (by decide) (by decide) (by decide)
    (by decide) (by decide)
  have hoff := ((checkResetChannels_claim
    (processSerial (stateAfter 1 zeroEeprom 1600 frame0194) 1600).1 1681 0
    (by decide) (by decide)).2.1 (by decide)).1
  exact ⟨hkeep.trans (by decide), hexp, hoff.trans (by decide)⟩

/-- C1: dispatch decodes the address from payload characters 1–2 and the
command from characters 3–4 to the literal hex values (`charToNib` maps
each hex digit character to its value), and when the decoded address
equals the device's own address, each channel whose command bit is 1
receives exactly one debounced on-request while channels whose bit is 0
keep their state and timestamp; concretely, frame `"<0194>"` at device
address 1 decodes to address 1 and command `0x94` = 148 and requests
channels 2, 4 and 7 on. -/
theorem dispatch_decode_and_bitmask_claim :
    (∀ d : Nat, d ≤ 9 → charToNib (48 + d) = d) ∧
    (∀ d : Nat, d ≤ 5 →
      charToNib (65 + d) = 10 + d ∧ charToNib (97 + d) = 10 + d) ∧
    (∀ (s : DeviceState) (now i : Nat),
      s.serialMessageAvailable = true →
      readSerialByte s.serialData 1 = s.deviceAddress →
      s.deviceAddress ≤ 253 → i < 8 →
      s.setChannelLastTime.length = 8 →
      ((processSerial s now).1.channelOnBitmask.testBit i,
       (processSerial s now).1.setChannelLastTime.getD i 0) =
        (if (readSerialByte s.serialData 3).testBit i then
          requestAtView now s.minChannelOffTime
            (s.channelOnBitmask.testBit i, s.setChannelLastTime.getD i 0)
        else
          (s.channelOnBitmask.testBit i, s.setChannelLastTime.getD i 0))) ∧
    (readSerialByte (stateAfter 1 zeroEeprom 1600 frame0194).serialData 1 = 1 ∧
     readSerialByte (stateAfter 1 zeroEeprom 1600 frame0194).serialData 3 = 148 ∧
     (processSerial (stateAfter 1 zeroEeprom 1600 frame0194) 1600).1.channelOnBitmask
       = 148) := by
  refine ⟨by decide, by decide, ?_, by decide, by decide, by decide⟩
  intro s now i hav haddr hlow hi hL
  obtain ⟨h1, h2, -, -, -, -⟩ := processSerial_of_available s now hav
  rw [h1, h2]
  have hch := processSerialCore_channels s now
  have h254 : readSerialByte s.serialData 1 ≠ 254 := by omega
  rw [if_pos haddr, if_neg h254] at hch
  have hm : (processSerialCore s now).channelOnBitmask =
      ((List.range 8).foldl
        (requestOnStep now s.minChannelOffTime (readSerialByte s.serialData 3))
        (s.channelOnBitmask, s.setChannelLastTime)).1 :=
    congrArg Prod.fst hch
  have ht : (processSerialCore s now).setChannelLastTime =
      ((List.range 8).foldl
        (requestOnStep now s.minChannelOffTime (readSerialByte s.serialData 3))
        (s.channelOnBitmask, s.setChannelLastTime)).2 :=
    congrArg Prod.snd hch
  rw [hm, ht]
  simpa [viewAt] using
    channelFold_viewAt now s.minChannelOffTime (readSerialByte s.serialData 3)
      s.channelOnBitmask s.setChannelLastTime i hi hL

/-- Witness for C1: the frame `"<0194>"` processed at device address 1
turns channel 2 on with timestamp 1600, and leaves channel 0 off with its
timestamp untouched (its command bit is 0). -/
theorem dispatch_decode_and_bitmask_claim_witness :
    ((processSerial (stateAfter 1 zeroEeprom 1600 frame0194) 1600).1.channelOnBitmask.testBit 2,
     (processSerial (stateAfter 1 zeroEeprom 1600 frame0194) 1600).1.setChannelLastTime.getD 2 0)
      = (true, 1600) ∧
    ((processSerial (stateAfter 1 zeroEeprom 1600 frame0194) 1600).1.channelOnBitmask.testBit 0,
     (processSerial (stateAfter 1 zeroEeprom 1600 frame0194) 1600).1.setChannelLastTime.getD 0 0)
      = (false, 0) := by
  have h2 := dispatch_decode_and_bitmask_claim.2.2.1
    (stateAfter 1 zeroEeprom 1600 frame0194) 1600 2 (by decide) (by decide)
    (by decide) (by decide) (by decide)
  have h0 := dispatch_decode_and_bitmask_claim.2.2.1
    (stateAfter 1 zeroEeprom 1600 frame0194) 1600 0 (by decide) (by decide)
    (by decide) (by decide) (by decide)
  exact ⟨h2.trans (by decide), h0.trans (by decide)⟩

/-- C8: a dispatched frame whose decoded address differs from the
device's own address — the configuration addresses 254 and 255 included —
causes no channel action: the channel bitmask and every per-channel
timestamp are exactly as before, and the device address and buffer are
untouched as well (a configuration command changes only the timing
configuration and the persistent store). -/
theorem unmatched_address_claim (s : DeviceState) (now : Nat)
    (hav : s.serialMessageAvailable = true)
    (hne : readSerialByte s.serialData 1 ≠ s.deviceAddress) :
    (processSerial s now).1.channelOnBitmask = s.channelOnBitmask ∧
    (processSerial s now).1.setChannelLastTime = s.setChannelLastTime ∧
    (processSerial s now).1.deviceAddress = s.deviceAddress ∧
    (processSerial s now).1.serialData = s.serialData := by
  obtain ⟨h1, h2, -, -, -, -⟩ := processSerial_of_available s now hav
  have hda : (processSerial s now).1.deviceAddress =
      (processSerialCore s now).deviceAddress := by
    unfold processSerial
    rw [if_neg (by simp [hav])]
  have hsd : (processSerial s now).1.serialData =
      (processSerialCore s now).serialData := by
    unfold processSerial
    rw [if_neg (by simp [hav])]
  have hch := processSerialCore_channels s now
  rw [if_neg hne] at hch
  exact ⟨h1.trans (congrArg Prod.fst hch), h2.trans (congrArg Prod.snd hch),
    hda.trans (processSerialCore_deviceAddress s now),
    hsd.trans (processSerialCore_serialData s now)⟩

/-- Witness for C8: the configuration frame `"<FF19>"` received by the
device at address 0 changes neither the channel bitmask nor the
timestamps, and likewise for a frame addressed to device 2. -/
theorem unmatched_address_claim_witness :
    (processSerial (stateAfter 0 zeroEeprom 0 frameFF19) 0).1.channelOnBitmask
      = (stateAfter 0 zeroEeprom 0 frameFF19).channelOnBitmask ∧
    (processSerial (stateAfter 0 zeroEeprom 0 frameFF19) 0).1.setChannelLastTime
      = (stateAfter 0 zeroEeprom 0 frameFF19).setChannelLastTime := by
  have h := unmatched_address_claim (stateAfter 0 zeroEeprom 0 frameFF19) 0
    (by decide) (by decide)
  exact ⟨h.1, h.2.1⟩

/-- C4: a set-on-time command (decoded address `0xFF` = 255, command `v`)
writes the sentinel at store offset 0 and `v` at offset 1 and sets
`channelOnTime = v * 10` milliseconds, and a boot-time load from the
resulting store — `loadChannelOnTime` alone or a full simulated power
cycle through `bootState` — yields `channelOnTime = v * 10` again; the
same holds for address `0xFE` = 254 with offsets 2/3 and
`minChannelOffTime`. -/
theorem config_roundtrip_claim (s : DeviceState) (now v : Nat)
    (hav : s.serialMessageAvailable = true) :
    (readSerialByte s.serialData 1 = 255 → readSerialByte s.serialData 3 = v →
      (processSerial s now).1.eeprom 0 = EEPROM_SET_FLAG ∧
      (processSerial s now).1.eeprom 1 = v ∧
      (processSerial s now).1.channelOnTime = v * 10 ∧
      (loadChannelOnTime (processSerial s now).1).channelOnTime = v * 10 ∧
      (∀ a : Nat,
        (bootState a (processSerial s now).1.eeprom).channelOnTime = v * 10)) ∧
    (readSerialByte s.serialData 1 = 254 → readSerialByte s.serialData 3 = v →
      (processSerial s now).1.eeprom 2 = EEPROM_SET_FLAG ∧
      (processSerial s now).1.eeprom 3 = v ∧
      (processSerial s now).1.minChannelOffTime = v * 10 ∧
      (loadMinChannelOffTime (processSerial s now).1).minChannelOffTime = v * 10 ∧
      (∀ a : Nat,
        (bootState a (processSerial s now).1.eeprom).minChannelOffTime
          = v * 10)) := by
  obtain ⟨-, -, he, hct, hmt, -⟩ := processSerial_of_available s now hav
  obtain ⟨ce, cct, cmt⟩ := processSerialCore_config s now
  constructor
  · intro h255 hv
    have heq : (processSerial s now).1.eeprom =
        eepromWrite (eepromWrite s.eeprom 0 EEPROM_SET_FLAG) 1 v := by
      rw [he, ce, h255, hv]
      simp [dispatchConfig, setChannelOnTime]
    have h0 : (processSerial s now).1.eeprom 0 = EEPROM_SET_FLAG := by
      rw [heq]; simp [eepromWrite]
    have h1 : (processSerial s now).1.eeprom 1 = v := by
      rw [heq]; simp [eepromWrite]
    have hc : (processSerial s now).1.channelOnTime = v * 10 := by
      rw [hct, cct, h255, hv]
      simp [dispatchConfig, setChannelOnTime]
    refine ⟨h0, h1, hc, ?_, ?_⟩
    · simp [loadChannelOnTime, h0, h1]
    · intro a
      simp [bootState, loadChannelOnTime, loadMinChannelOffTime, h0, h1]
  · intro h254 hv
    have heq : (processSerial s now).1.eeprom =
        eepromWrite (eepromWrite s.eeprom 2 EEPROM_SET_FLAG) 3 v := by
      rw [he, ce, h254, hv]
      simp [dispatchConfig, setMinChannelOffTime]
    have h2 : (processSerial s now).1.eeprom 2 = EEPROM_SET_FLAG := by
      rw [heq]; simp [eepromWrite]
    have h3 : (processSerial s now).1.eeprom 3 = v := by
      rw [heq]; simp [eepromWrite]
    have hc : (processSerial s now).1.minChannelOffTime = v * 10 := by
      rw [hmt, cmt, h254, hv]
      simp [dispatchConfig, setMinChannelOffTime]
    refine ⟨h2, h3, hc, ?_, ?_⟩
    · simp [loadMinChannelOffTime, h2, h3]
    · intro a
      simp [bootState, loadChannelOnTime, loadMinChannelOffTime, h2, h3]

/-- Witness for C4: `"<FF19>"` sets the on time to 0x19 × 10 = 250 ms and
a simulated power cycle still reads 250 ms; `"<FE0C>"` sets the minimum
off time to 0x0C × 10 = 120 ms, likewise persistent. -/
theorem config_roundtrip_claim_witness :
    (processSerial (stateAfter 0 zeroEeprom 0 frameFF19) 0).1.channelOnTime
      = 250 ∧
    (bootState 3 (processSerial (stateAfter 0 zeroEeprom 0 frameFF19) 0).1.eeprom).channelOnTime
      = 250 ∧
    (processSerial (stateAfter 0 zeroEeprom 0 frameFE0C) 0).1.minChannelOffTime
      = 120 ∧
    (bootState 3 (processSerial (stateAfter 0 zeroEeprom 0 frameFE0C) 0).1.eeprom).minChannelOffTime
      = 120 := by
  have hff := (config_roundtrip_claim (stateAfter 0 zeroEeprom 0 frameFF19) 0 25
    (by decide)).1 (by decide) (by decide)
  have hfe := (config_roundtrip_claim (stateAfter 0 zeroEeprom 0 frameFE0C) 0 12
    (by decide)).2 (by decide) (by decide)
  exact ⟨hff.2.2.1, hff.2.2.2.2 3, hfe.2.2.1, hfe.2.2.2.2 3⟩

/-- C9: processing the malformed short frame `"<zz>"` cannot fail: the
decode is total (`'z'` and `'>'` both decode to nibble 0), only the fixed
buffer positions 1–4 determine the decoded address and command and hence
the resulting channel state (two devices agreeing there and on the engine
state end with identical bitmask and timestamps), and from boot the frame
`"<zz>"` decodes to address 0, command 0, turning nothing on. -/
theorem malformed_frame_claim :
    (charToNib 122 = 0 ∧ charToNib 62 = 0) ∧
    (∀ (s1 s2 : DeviceState) (now : Nat),
      s1.serialMessageAvailable = true → s2.serialMessageAvailable = true →
      s1.deviceAddress = s2.deviceAddress →
      s1.minChannelOffTime = s2.minChannelOffTime →
      s1.channelOnBitmask = s2.channelOnBitmask →
      s1.setChannelLastTime = s2.setChannelLastTime →
      s1.serialData.getD 1 0 = s2.serialData.getD 1 0 →
      s1.serialData.getD 2 0 = s2.serialData.getD 2 0 →
      s1.serialData.getD 3 0 = s2.serialData.getD 3 0 →
      s1.serialData.getD 4 0 = s2.serialData.getD 4 0 →
      (processSerial s1 now).1.channelOnBitmask
        = (processSerial s2 now).1.channelOnBitmask ∧
      (processSerial s1 now).1.setChannelLastTime
        = (processSerial s2 now).1.setChannelLastTime) ∧
    (readSerialByte (stateAfter 0 zeroEeprom 0 frameZZ).serialData 1 = 0 ∧
     readSerialByte (stateAfter 0 zeroEeprom 0 frameZZ).serialData 3 = 0 ∧
     (processSerial (stateAfter 0 zeroEeprom 0 frameZZ) 0).1.channelOnBitmask
       = 0) := by
  refine ⟨⟨by decide, by decide⟩, ?_, by decide, by decide, by decide⟩
  intro s1 s2 now hav1 hav2 hdev hoff hmask htimes e1 e2 e3 e4
  have haddr : readSerialByte s1.serialData 1 = readSerialByte s2.serialData 1 := by
    unfold readSerialByte
    rw [e1, e2]
  have hcmd : readSerialByte s1.serialData 3 = readSerialByte s2.serialData 3 := by
    unfold readSerialByte
    rw [e3, e4]
  obtain ⟨p1m, p1t, -, -, -, -⟩ := processSerial_of_available s1 now hav1
  obtain ⟨p2m, p2t, -, -, -, -⟩ := processSerial_of_available s2 now hav2
  rw [p1m, p1t, p2m, p2t]
  have c1 := processSerialCore_channels s1 now
  have c2 := processSerialCore_channels s2 now
  rw [haddr, hcmd, hdev, hoff, hmask, htimes] at c1
  have hpair := c1.trans c2.symm
  have hm : (processSerialCore s1 now).channelOnBitmask
      = (processSerialCore s2 now).channelOnBitmask := congrArg Prod.fst hpair
  have ht : (processSerialCore s1 now).setChannelLastTime
      = (processSerialCore s2 now).setChannelLastTime := congrArg Prod.snd hpair
  exact ⟨hm, ht⟩

/-- Witness for C9: garbage beyond buffer position 4 — here a byte
altered at position 10 — does not change the outcome of dispatching
`"<zz>"`. -/
theorem malformed_frame_claim_witness :
    (processSerial (stateAfter 0 zeroEeprom 0 frameZZ) 0).1.channelOnBitmask
      = (processSerial
          { stateAfter 0 zeroEeprom 0 frameZZ with
            serialData :=
              (stateAfter 0 zeroEeprom 0 frameZZ).serialData.set 10 77 }
          0).1.channelOnBitmask := by
  exact (malformed_frame_claim.2.1 (stateAfter 0 zeroEeprom 0 frameZZ)
    { stateAfter 0 zeroEeprom 0 frameZZ with
      serialData := (stateAfter 0 zeroEeprom 0 frameZZ).serialData.set 10 77 }
    0 (by decide) (by decide) (by decide) (by decide) (by decide) (by decide)
    (by decide) (by decide) (by decide) (by decide)).1

/-! ## Shape lemmas for the frame decoder -/

theorem take_set_succ (l : List Nat) (n a : Nat) (h : n < l.length) :
    (l.set n a).take (n + 1) = l.take n ++ [a] := by
  induction l generalizing n with
  | nil => simp at h
  | cons x xs ih =>
    cases n with
    | zero => simp
    | succ m =>
      have hm : m < xs.length := by simpa using h
      simp [List.set, ih m hm]

/-- The decoder step on the end-marker byte while a frame is open: the
marker is appended (one slot was reserved), the frame completes, and the
decoder returns to listening. -/
theorem listenSerialStep_end (s : DeviceState) (t : Nat)
    (hact : s.serialMessageActive = true)
    (hlen : s.serialMessageLength ≤ 31) :
    listenSerialStep s t SERIAL_MSG_END_CHAR =
      ({ s with
          serialLastTime := t % ULONG_MOD
          serialMessageLength := s.serialMessageLength + 1
          serialData :=
            s.serialData.set s.serialMessageLength SERIAL_MSG_END_CHAR
          serialMessageActive := false
          serialMessageAvailable := true }, true) := by
  unfold listenSerialStep listenSerialNewChar
  dsimp only
  rw [hact]
  rw [if_pos rfl, if_pos rfl,
    if_neg (show ¬ SERIAL_MAX_DATA_LENGTH - 0 ≤ s.serialMessageLength by
      unfold SERIAL_MAX_DATA_LENGTH; omega)]

/-- The decoder step on a non-end byte while a frame is open and the
buffer is below its reserved limit: the byte is appended. -/
theorem listenSerialStep_append (s : DeviceState) (t ch : Nat)
    (hact : s.serialMessageActive = true)
    (hch : ch ≠ SERIAL_MSG_END_CHAR)
    (hlen : s.serialMessageLength < 31) :
    listenSerialStep s t ch =
      ({ s with
          serialLastTime := t % ULONG_MOD
          serialMessageLength := s.serialMessageLength + 1
          serialData := s.serialData.set s.serialMessageLength ch }, false) := by
  unfold listenSerialStep listenSerialNewChar
  dsimp only
  rw [hact]
  rw [if_pos rfl, if_neg hch,
    if_neg (show ¬ SERIAL_MAX_DATA_LENGTH - 1 ≤ s.serialMessageLength by
      unfold SERIAL_MAX_DATA_LENGTH; omega)]

/-- The decoder step on a non-end byte while a frame is open and the
buffer has reached its limit: the byte is dropped; only the last-byte
arrival time advances. -/
theorem listenSerialStep_drop (s : DeviceState) (t ch : Nat)
    (hact : s.serialMessageActive = true)
    (hch : ch ≠ SERIAL_MSG_END_CHAR)
    (hlen : 31 ≤ s.serialMessageLength) :
    listenSerialStep s t ch =
      ({ s with serialLastTime := t % ULONG_MOD }, false) := by
  unfold listenSerialStep listenSerialNewChar
  dsimp only
  rw [hact]
  rw [if_pos rfl, if_neg hch,
    if_pos (show SERIAL_MAX_DATA_LENGTH - 1 ≤ s.serialMessageLength by
      unfold SERIAL_MAX_DATA_LENGTH; omega)]

/-- The decoder step on the start marker while listening with an empty
buffer: the marker is stored and accumulation begins. -/
theorem listenSerialStep_begin (s : DeviceState) (t : Nat)
    (hact : s.serialMessageActive = false)
    (hlen : s.serialMessageLength < 31) :
    listenSerialStep s t SERIAL_MSG_BEGIN_CHAR =
      ({ s with
          serialLastTime := t % ULONG_MOD
          serialMessageLength := s.serialMessageLength + 1
          serialData :=
            s.serialData.set s.serialMessageLength SERIAL_MSG_BEGIN_CHAR
          serialMessageActive := true }, false) := by
  unfold listenSerialStep listenSerialNewChar
  dsimp only
  rw [hact]
  rw [if_neg (by simp), if_pos rfl,
    if_neg (show ¬ SERIAL_MAX_DATA_LENGTH - 1 ≤ s.serialMessageLength by
      unfold SERIAL_MAX_DATA_LENGTH; omega)]

/-- Draining a concatenation of byte bursts: when the first burst does
not complete a frame, the drain continues into the second burst from the
reached state. -/
theorem listenSerialBytes_append (s : DeviceState) (xs ys : List (Nat × Nat)) :
    listenSerialBytes s (xs ++ ys) =
      (if (listenSerialBytes s xs).2.2 then
        ((listenSerialBytes s xs).1, (listenSerialBytes s xs).2.1 ++ ys, true)
      else listenSerialBytes (listenSerialBytes s xs).1 ys) := by
  induction xs generalizing s with
  | nil => simp [listenSerialBytes]
  | cons b xs ih =>
    cases b with
    | mk tb chb =>
      by_cases h : (listenSerialStep s tb chb).2 = true
      · simp [listenSerialBytes, h]
      · have hF : (listenSerialStep s tb chb).2 = false := by
          revert h
          cases (listenSerialStep s tb chb).2 <;> simp
        simp [listenSerialBytes, hF, ih]

/-- Accumulating a burst of non-end bytes that fits in the buffer while a
frame is open: all bytes are appended in order, the decoder stays in
accumulation, and nothing is emitted. -/
theorem listenSerialBytes_accum (t : Nat) :
    ∀ (bs : List Nat) (s : DeviceState),
      s.serialMessageActive = true →
      (∀ b ∈ bs, b ≠ SERIAL_MSG_END_CHAR) →
      s.serialMessageLength + bs.length ≤ 31 →
      s.serialData.length = 32 →
      (listenSerialBytes s (atTime t bs)).2.2 = false ∧
      (listenSerialBytes s (atTime t bs)).2.1 = [] ∧
      (listenSerialBytes s (atTime t bs)).1.serialMessageActive = true ∧
      (listenSerialBytes s (atTime t bs)).1.serialMessageAvailable
        = s.serialMessageAvailable ∧
      (listenSerialBytes s (atTime t bs)).1.serialMessageLength
        = s.serialMessageLength + bs.length ∧
      (listenSerialBytes s (atTime t bs)).1.serialData.length = 32 ∧
      (listenSerialBytes s (atTime t bs)).1.serialData.take
          (listenSerialBytes s (atTime t bs)).1.serialMessageLength
        = s.serialData.take s.serialMessageLength ++ bs := by
  intro bs
  induction bs with
  | nil => intro s h1 _ _ h4; simp [atTime, listenSerialBytes, h1, h4]
  | cons b bs ih =>
    intro s hact hne hfit hd
    have hb : b ≠ SERIAL_MSG_END_CHAR := hne b (List.mem_cons_self b bs)
    have hlenc : (b :: bs).length = bs.length + 1 := List.length_cons b bs
    have hfit' : s.serialMessageLength + bs.length + 1 ≤ 31 := by omega
    have hlen : s.serialMessageLength < 31 := by omega
    have hstep := listenSerialStep_append s t b hact hb hlen
    have hcons : atTime t (b :: bs) = (t, b) :: atTime t bs := rfl
    rw [hcons]
    unfold listenSerialBytes
    rw [hstep]
    dsimp only
    rw [if_neg (by simp)]
    obtain ⟨r1, r2, r3, r4, r5, r6, r7⟩ :=
      ih ({ s with
              serialLastTime := t % ULONG_MOD
              serialMessageLength := s.serialMessageLength + 1
              serialData := s.serialData.set s.serialMessageLength b })
        hact (fun x hx => hne x (List.mem_cons_of_mem b hx))
        (by simp; omega) (by simp [hd])
    refine ⟨r1, r2, r3, r4, ?_, r6, ?_⟩
    · rw [r5]
      simp
      omega
    · rw [r7]
      dsimp only
      rw [take_set_succ s.serialData s.serialMessageLength b (by omega)]
      simp

/-- Listening to a whole well-formed frame from a ready decoder state:
the frame completes, nothing is left unread, and the stored bytes are
exactly the frame, start and end markers included. -/
theorem frame_listen (payload : List Nat) (s : DeviceState) (t : Nat)
    (hact : s.serialMessageActive = false)
    (hlen : s.serialMessageLength = 0)
    (hd : s.serialData.length = 32)
    (hp : ∀ b ∈ payload, b ≠ SERIAL_MSG_END_CHAR)
    (hsize : payload.length ≤ 30) :
    (listenSerialBytes s (atTime t
        (SERIAL_MSG_BEGIN_CHAR :: payload ++ [SERIAL_MSG_END_CHAR]))).2.2
      = true ∧
    (listenSerialBytes s (atTime t
        (SERIAL_MSG_BEGIN_CHAR :: payload ++ [SERIAL_MSG_END_CHAR]))).2.1
      = [] ∧
    (listenSerialBytes s (atTime t
        (SERIAL_MSG_BEGIN_CHAR :: payload ++ [SERIAL_MSG_END_CHAR]))).1.serialMessageAvailable
      = true ∧
    (listenSerialBytes s (atTime t
        (SERIAL_MSG_BEGIN_CHAR :: payload ++ [SERIAL_MSG_END_CHAR]))).1.serialMessageLength
      = payload.length + 2 ∧
    (listenSerialBytes s (atTime t
        (SERIAL_MSG_BEGIN_CHAR :: payload ++ [SERIAL_MSG_END_CHAR]))).1.serialData.take
        (listenSerialBytes s (atTime t
          (SERIAL_MSG_BEGIN_CHAR :: payload ++ [SERIAL_MSG_END_CHAR]))).1.serialMessageLength
      = SERIAL_MSG_BEGIN_CHAR :: payload ++ [SERIAL_MSG_END_CHAR] := by
  have hsplit : atTime t (SERIAL_MSG_BEGIN_CHAR :: payload ++ [SERIAL_MSG_END_CHAR])
      = (t, SERIAL_MSG_BEGIN_CHAR) ::
          (atTime t payload ++ [(t, SERIAL_MSG_END_CHAR)]) := by
    simp [atTime]
  rw [hsplit]
  simp only [listenSerialBytes]
  rw [listenSerialStep_begin s t hact (by omega)]
  dsimp only
  rw [if_neg (by simp)]
  rw [listenSerialBytes_append]
  obtain ⟨a1, a2, a3, a4, a5, a6, a7⟩ := listenSerialBytes_accum t payload
    { s with
        serialLastTime := t % ULONG_MOD
        serialMessageLength := s.serialMessageLength + 1
        serialData := s.serialData.set s.serialMessageLength SERIAL_MSG_BEGIN_CHAR
        serialMessageActive := true }
    rfl hp (by dsimp only; omega) (by dsimp only; simp [hd])
  dsimp only at a1 a2 a3 a4 a5 a6 a7
  rw [a1]
  rw [if_neg (by simp)]
  simp only [listenSerialBytes]
  rw [listenSerialStep_end _ t a3 (by rw [a5]; omega)]
  dsimp only
  rw [if_pos rfl]
  rw [a5] at a7
  refine ⟨rfl, rfl, rfl, by dsimp only; omega, ?_⟩
  dsimp only
  rw [a5]
  rw [take_set_succ _ _ _ (by rw [a6]; omega)]
  rw [a7]
  rw [take_set_succ s.serialData s.serialMessageLength SERIAL_MSG_BEGIN_CHAR
    (by omega)]
  rw [hlen]
  simp

/-- Invariant preservation for a single decoder step: a completed frame
leaves at most 32 stored bytes with the message flagged available;
otherwise the decoder invariant is maintained. -/
theorem listenSerialStep_inv (s : DeviceState) (t ch : Nat)
    (hinv : ListenInv s) :
    ((listenSerialStep s t ch).2 = true →
      (listenSerialStep s t ch).1.serialMessageLength ≤ 32 ∧
      (listenSerialStep s t ch).1.serialMessageAvailable = true ∧
      (listenSerialStep s t ch).1.serialData.length = 32) ∧
    ((listenSerialStep s t ch).2 = false →
      ListenInv (listenSerialStep s t ch).1) := by
  obtain ⟨hd, hl, hav⟩ := hinv
  unfold listenSerialStep listenSerialNewChar ListenInv
  dsimp only
  by_cases hact : s.serialMessageActive = true
  · rw [hact]
    rw [if_pos rfl]
    by_cases hch : ch = SERIAL_MSG_END_CHAR
    · rw [if_pos hch]
      rw [if_neg (show ¬ SERIAL_MAX_DATA_LENGTH - 0 ≤ s.serialMessageLength by
        unfold SERIAL_MAX_DATA_LENGTH; omega)]
      dsimp only
      exact ⟨fun _ => ⟨by omega, rfl, by simp [hd]⟩,
        fun hcon => absurd hcon (by simp)⟩
    · rw [if_neg hch]
      by_cases hcap : SERIAL_MAX_DATA_LENGTH - 1 ≤ s.serialMessageLength
      · rw [if_pos hcap]
        dsimp only
        exact ⟨fun hcon => absurd hcon (by simp), fun _ => ⟨hd, hl, hav⟩⟩
      · rw [if_neg hcap]
        dsimp only
        exact ⟨fun hcon => absurd hcon (by simp),
          fun _ => ⟨by simp [hd],
            by unfold SERIAL_MAX_DATA_LENGTH at hcap; omega, hav⟩⟩
  · have hact' : s.serialMessageActive = false := by
      revert hact
      cases s.serialMessageActive <;> simp
    rw [hact']
    rw [if_neg (by simp)]
    by_cases hch : ch = SERIAL_MSG_BEGIN_CHAR
    · rw [if_pos hch]
      by_cases hcap : SERIAL_MAX_DATA_LENGTH - 1 ≤ s.serialMessageLength
      · rw [if_pos hcap]
        dsimp only
        exact ⟨fun hcon => absurd hcon (by simp), fun _ => ⟨hd, hl, hav⟩⟩
      · rw [if_neg hcap]
        dsimp only
        exact ⟨fun hcon => absurd hcon (by simp),
          fun _ => ⟨by simp [hd],
            by unfold SERIAL_MAX_DATA_LENGTH at hcap; omega, hav⟩⟩
    · rw [if_neg hch]
      dsimp only
      exact ⟨fun hcon => absurd hcon (by simp), fun _ => ⟨hd, hl, hav⟩⟩

/-- Invariant preservation for a whole drain: a drain that completes a
frame leaves at most 32 stored bytes flagged available; one that does not
maintains the decoder invariant. -/
theorem listenSerialBytes_inv (bytes : List (Nat × Nat)) :
    ∀ s : DeviceState, ListenInv s →
      ((listenSerialBytes s bytes).2.2 = true →
        (listenSerialBytes s bytes).1.serialMessageLength ≤ 32 ∧
        (listenSerialBytes s bytes).1.serialMessageAvailable = true ∧
        (listenSerialBytes s bytes).1.serialData.length = 32) ∧
      ((listenSerialBytes s bytes).2.2 = false →
        ListenInv (listenSerialBytes s bytes).1) := by
  induction bytes with
  | nil =>
    intro s h
    constructor
    · intro hcon
      simp [listenSerialBytes] at hcon
    · intro _
      simpa [listenSerialBytes] using h
  | cons b rest ih =>
    intro s h
    cases b with
    | mk tb chb =>
      have hstep := listenSerialStep_inv s tb chb h
      by_cases hdone : (listenSerialStep s tb chb).2 = true
      · constructor
        · intro _
          simpa [listenSerialBytes, hdone] using hstep.1 hdone
        · intro hcon
          simp [listenSerialBytes, hdone] at hcon
      · have hF : (listenSerialStep s tb chb).2 = false := by
          revert hdone
          cases (listenSerialStep s tb chb).2 <;> simp
        have hrec := ih (listenSerialStep s tb chb).1 (hstep.2 hF)
        constructor
        · intro hdone2
          have hin : (listenSerialBytes (listenSerialStep s tb chb).1 rest).2.2
              = true := by
            simpa [listenSerialBytes, hF] using hdone2
          simpa [listenSerialBytes, hF] using hrec.1 hin
        · intro hnd
          have hin : (listenSerialBytes (listenSerialStep s tb chb).1 rest).2.2
              = false := by
            simpa [listenSerialBytes, hF] using hnd
          simpa [listenSerialBytes, hF] using hrec.2 hin

/-- C5: the relay is unconditional and verbatim: whenever a completed
message is available, `processSerial` writes exactly the stored frame
bytes followed by the line terminator, independent of every dispatch
rule; and end to end, a raw frame of at most 32 bytes received by a ready
decoder is re-emitted byte for byte, start and end markers included,
whatever the device address. -/
theorem relay_roundtrip_claim :
    (∀ (s : DeviceState) (now : Nat), s.serialMessageAvailable = true →
      (processSerial s now).2 =
        s.serialData.take s.serialMessageLength ++ [13, 10]) ∧
    (∀ (payload : List Nat) (s : DeviceState) (t now : Nat),
      s.serialMessageActive = false →
      s.serialMessageLength = 0 →
      s.serialData.length = 32 →
      (∀ b ∈ payload, b ≠ SERIAL_MSG_END_CHAR) →
      payload.length ≤ 30 →
      (listenSerial s t (atTime t
          (SERIAL_MSG_BEGIN_CHAR :: payload ++ [SERIAL_MSG_END_CHAR]))).2
        = [] ∧
      (processSerial (listenSerial s t (atTime t
          (SERIAL_MSG_BEGIN_CHAR :: payload ++ [SERIAL_MSG_END_CHAR]))).1
        now).2
        = (SERIAL_MSG_BEGIN_CHAR :: payload ++ [SERIAL_MSG_END_CHAR])
            ++ [13, 10]) := by
  constructor
  · intro s now hav
    exact (processSerial_of_available s now hav).2.2.2.2.2
  · intro payload s t now hact hlen hd hp hsize
    obtain ⟨f1, f2, f3, f4, f5⟩ := frame_listen payload s t hact hlen hd hp hsize
    have hls : listenSerial s t (atTime t
        (SERIAL_MSG_BEGIN_CHAR :: payload ++ [SERIAL_MSG_END_CHAR])) =
        ((listenSerialBytes s (atTime t
          (SERIAL_MSG_BEGIN_CHAR :: payload ++ [SERIAL_MSG_END_CHAR]))).1,
         (listenSerialBytes s (atTime t
          (SERIAL_MSG_BEGIN_CHAR :: payload ++ [SERIAL_MSG_END_CHAR]))).2.1) := by
      unfold listenSerial
      dsimp only
      rw [f1, if_pos rfl]
    rw [hls]
    refine ⟨f2, ?_⟩
    have hout := (processSerial_of_available _ now f3).2.2.2.2.2
    rw [hout, f4]
    rw [show (listenSerialBytes s (atTime t
        (SERIAL_MSG_BEGIN_CHAR :: payload ++ [SERIAL_MSG_END_CHAR]))).1.serialData.take
        (payload.length + 2) =
        SERIAL_MSG_BEGIN_CHAR :: payload ++ [SERIAL_MSG_END_CHAR] from
      f4 ▸ f5]

/-- Witness for C5: the frame `"<0194>"` received by a device at
address 5 (not addressed) is relayed verbatim with the terminator. -/
theorem relay_roundtrip_claim_witness :
    (processSerial (listenSerial (bootState 5 zeroEeprom) 0
        (atTime 0 (SERIAL_MSG_BEGIN_CHAR :: [48, 49, 57, 52]
          ++ [SERIAL_MSG_END_CHAR]))).1 0).2
      = [60, 48, 49, 57, 52, 62, 13, 10] := by
  have h := relay_roundtrip_claim.2 [48, 49, 57, 52] (bootState 5 zeroEeprom)
    0 0 (by decide) (by decide) (by decide) (by decide) (by decide)
  exact h.2.trans (by decide)

/-- C6: while a frame is open, a non-end byte is appended exactly when
the stored length is below the 32-byte capacity minus the one reserved
slot (at the limit the byte is silently dropped, changing nothing but the
last-byte arrival time); the end marker is itself appended, completes the
frame and returns the decoder to listening; and under the decoder
invariant every completed frame holds at most 32 bytes, markers
included. -/
theorem decoder_capacity_claim :
    (∀ (s : DeviceState) (t ch : Nat),
      s.serialMessageActive = true → ch ≠ SERIAL_MSG_END_CHAR →
      (s.serialMessageLength < 31 →
        listenSerialStep s t ch =
          ({ s with
              serialLastTime := t % ULONG_MOD
              serialMessageLength := s.serialMessageLength + 1
              serialData := s.serialData.set s.serialMessageLength ch },
            false)) ∧
      (31 ≤ s.serialMessageLength →
        listenSerialStep s t ch =
          ({ s with serialLastTime := t % ULONG_MOD }, false))) ∧
    (∀ (s : DeviceState) (t : Nat),
      s.serialMessageActive = true → s.serialMessageLength ≤ 31 →
      listenSerialStep s t SERIAL_MSG_END_CHAR =
        ({ s with
            serialLastTime := t % ULONG_MOD
            serialMessageLength := s.serialMessageLength + 1
            serialData :=
              s.serialData.set s.serialMessageLength SERIAL_MSG_END_CHAR
            serialMessageActive := false
            serialMessageAvailable := true }, true)) ∧
    (∀ (bytes : List (Nat × Nat)) (s : DeviceState),
      ListenInv s → (listenSerialBytes s bytes).2.2 = true →
      (listenSerialBytes s bytes).1.serialMessageLength ≤ 32 ∧
      ((listenSerialBytes s bytes).1.serialData.take
        (listenSerialBytes s bytes).1.serialMessageLength).length ≤ 32) := by
  refine ⟨fun s t ch hact hch =>
      ⟨fun hcap => listenSerialStep_append s t ch hact hch hcap,
       fun hcap => listenSerialStep_drop s t ch hact hch hcap⟩,
    fun s t hact hlen => listenSerialStep_end s t hact hlen,
    fun bytes s hinv hdone => ?_⟩
  obtain ⟨g1, -, -⟩ := (listenSerialBytes_inv bytes s hinv).1 hdone
  refine ⟨g1, ?_⟩
  rw [List.length_take]
  omega

/-- Witness for C6: a byte arriving to a full open frame (31 stored
bytes) is dropped, and an end marker arriving to an open frame with two
stored bytes completes it with the marker appended. -/
theorem decoder_capacity_claim_witness :
    (listenSerialStep
        { bootState 0 zeroEeprom with
            serialMessageActive := true, serialMessageLength := 31 }
        5 48).1.serialMessageLength = 31 ∧
    (listenSerialStep
        { bootState 0 zeroEeprom with
            serialMessageActive := true, serialMessageLength := 31 }
        5 48).2 = false ∧
    (listenSerialStep
        { bootState 0 zeroEeprom with
            serialMessageActive := true, serialMessageLength := 2 }
        5 SERIAL_MSG_END_CHAR).1.serialMessageAvailable = true ∧
    (listenSerialStep
        { bootState 0 zeroEeprom with
            serialMessageActive := true, serialMessageLength := 2 }
        5 SERIAL_MSG_END_CHAR).1.serialMessageLength = 3 := by
  have hdrop := (decoder_capacity_claim.1
    { bootState 0 zeroEeprom with
        serialMessageActive := true, serialMessageLength := 31 }
    5 48 rfl (by decide)).2 (by decide)
  have hend := decoder_capacity_claim.2.1
    { bootState 0 zeroEeprom with
        serialMessageActive := true, serialMessageLength := 2 }
    5 rfl (by decide)
  exact ⟨congrArg (fun p => p.1.serialMessageLength) hdrop,
    congrArg (fun p => p.2) hdrop,
    congrArg (fun p => p.1.serialMessageAvailable) hend,
    congrArg (fun p => p.1.serialMessageLength) hend⟩

/-- C10: a start-marker byte received while a frame is already open is
treated as an ordinary payload byte — appended when capacity permits,
dropped otherwise — and neither clears the buffer, restarts the frame,
nor leaves the accumulating state; no non-end byte completes a frame, and
a timeout check within 1000 ms of the last byte changes nothing. -/
theorem start_marker_ordinary_claim (s : DeviceState) (t : Nat)
    (hact : s.serialMessageActive = true) :
    (s.serialMessageLength < 31 →
      listenSerialStep s t SERIAL_MSG_BEGIN_CHAR =
        ({ s with
            serialLastTime := t % ULONG_MOD
            serialMessageLength := s.serialMessageLength + 1
            serialData :=
              s.serialData.set s.serialMessageLength SERIAL_MSG_BEGIN_CHAR },
          false)) ∧
    (31 ≤ s.serialMessageLength →
      listenSerialStep s t SERIAL_MSG_BEGIN_CHAR =
        ({ s with serialLastTime := t % ULONG_MOD }, false)) ∧
    (∀ ch : Nat, ch ≠ SERIAL_MSG_END_CHAR →
      (listenSerialStep s t ch).2 = false ∧
      (listenSerialStep s t ch).1.serialMessageActive = true ∧
      (listenSerialStep s t ch).1.serialMessageAvailable
        = s.serialMessageAvailable) ∧
    (∀ now : Nat, usub32 now s.serialLastTime ≤ 1000 →
      timeoutCheck s now = s) := by
  refine ⟨fun hcap => listenSerialStep_append s t SERIAL_MSG_BEGIN_CHAR hact
      (by decide) hcap,
    fun hcap => listenSerialStep_drop s t SERIAL_MSG_BEGIN_CHAR hact
      (by decide) hcap,
    fun ch hch => ?_, fun now hto => ?_⟩
  · by_cases hcap : s.serialMessageLength < 31
    · rw [listenSerialStep_append s t ch hact hch hcap]
      exact ⟨rfl, hact, rfl⟩
    · rw [listenSerialStep_drop s t ch hact hch (by omega)]
      exact ⟨rfl, hact, rfl⟩
  · unfold timeoutCheck
    rw [if_neg (by omega)]

/-- Witness for C10: with two bytes stored (`"<0"`), a further `'<'` at
time 7 is appended as payload and the decoder stays accumulating. -/
theorem start_marker_ordinary_claim_witness :
    (listenSerialStep
        { bootState 0 zeroEeprom with
            serialMessageActive := true, serialMessageLength := 2 }
        7 SERIAL_MSG_BEGIN_CHAR).1.serialMessageLength = 3 ∧
    (listenSerialStep
        { bootState 0 zeroEeprom with
            serialMessageActive := true, serialMessageLength := 2 }
        7 SERIAL_MSG_BEGIN_CHAR).1.serialMessageActive = true := by
  have h := (start_marker_ordinary_claim
    { bootState 0 zeroEeprom with
        serialMessageActive := true, serialMessageLength := 2 }
    7 rfl).1 (by decide)
  exact ⟨congrArg (fun p => p.1.serialMessageLength) h,
    congrArg (fun p => p.1.serialMessageActive) h⟩

/-- C7: starting from boot, receiving the partial frame `"<01"` at time
0, then nothing until past the 1000 ms timeout (a cycle at 1500 discards
the stalled frame), then the fresh frame `"<0194>"` at 1600, dispatches
exactly one message — the second frame, relayed alone. -/
theorem mid_frame_stall_claim :
    (loopIter (bootState 1 zeroEeprom) 0 (atTime 0 [60, 48, 49])).2.2 = []
      ∧
    (loopIter (loopIter (bootState 1 zeroEeprom) 0
        (atTime 0 [60, 48, 49])).1 1500 []).2.2 = [] ∧
    (loopIter (loopIter (bootState 1 zeroEeprom) 0
        (atTime 0 [60, 48, 49])).1 1500 []).1.serialMessageActive = false ∧
    (loopIter (loopIter (bootState 1 zeroEeprom) 0
        (atTime 0 [60, 48, 49])).1 1500 []).1.serialMessageLength = 0 ∧
    (loopIter (loopIter (loopIter (bootState 1 zeroEeprom) 0
        (atTime 0 [60, 48, 49])).1 1500 []).1 1600
      (atTime 1600 frame0194)).2.2 = frame0194 ++ [13, 10] := by
  exact ⟨by decide, by decide, by decide, by decide, by decide⟩

end L293D
